import Mathlib

/-!
Verification of the polling/merge tail engine of `awslog.py`.

The definitions below are a shallow embedding of the Python source:

* `LogEvent` models the event dicts returned by `filter_log_events`
  (`timestamp`, `message`, and the optional `log_group_name` tag added in
  set mode).
* `dedupFilter`, `advanceWatermark`, `tailStep` and `tailLoop` embed the
  body of `ZappaCLI.tail` (src/awslog.py lines 215-257): per loop iteration
  the fetched events are filtered to those strictly above the watermark
  (`last_since`), the surviving batch is handed to `print_logs`, and the
  watermark becomes the maximum timestamp of the surviving batch (or is
  left unchanged when the batch is empty).  The per-iteration fetch result
  is abstracted as a function of the iteration index and current watermark.
* `setFetch` embeds the set-mode merge (lines 226-242): tag each group's
  events with the group name, concatenate in group order, then sort by
  timestamp with Python's `sorted`, which is a stable sort; it is modelled
  by the stable insertion sort `sortByTs`.
* `fetch_logs_go` / `fetch_logs` embed the pagination loop of
  `ZappaCLI.fetch_logs` (lines 364-398), including Python truthiness of
  `end_time` (`0` and `None` are falsy) and the unconditional
  `if end_time: break`.  The backend call is abstracted as a function of
  the `nextToken` argument and the `endTime` argument; the loop-invariant
  arguments (group name, stream names, filter pattern, limit) are folded
  into that function.
* `durationpy_from_str` and its helpers embed the duration parser
  (lines 23-71), including the semantics of `re.findall` for the pattern
  `([\d.]+)([a-zµμ]+)` (non-overlapping matches scanned left to right,
  with unmatched characters skipped) and the acceptance condition of
  Python `float` on strings drawn from digits and dots.
* `find_log_group` embeds the substring resolver (lines 269-302) with the
  interactive choice passed in as a string, and `pyIntOfString` models the
  sign-and-digits fragment of Python `int` on strings (surrounding ASCII
  whitespace stripped; the underscore-separator extension is not modelled,
  no claim depends on it).
* `resolveIdentifier` embeds the `exact` / `use_set` dispatch at the top of
  `tail` (lines 201-209).
* `is_metadata_log` and `printedLogs` embed the lifecycle-marker filter of
  `print_logs` (lines 400-410 and 457-465).
-/

/-- One CloudWatch log event as handled by the script: a millisecond
timestamp, a message, and the optional originating log group added in set
mode. -/
structure LogEvent where
  timestamp : Int
  message : String
  log_group_name : Option String
deriving DecidableEq

/-- Line 244: `[e for e in new_logs if e["timestamp"] > last_since]`. -/
def dedupFilter (last_since : Int) (logs : List LogEvent) : List LogEvent :=
  logs.filter (fun e => last_since < e.timestamp)

/-- Python `max` over a list of ints (the empty case never occurs at the
call site, which guards on `if new_logs`). -/
def listMax : List Int → Int
  | [] => 0
  | x :: xs => xs.foldl max x

/-- Lines 250-251: `max([e["timestamp"] for e in new_logs]) if new_logs
else last_since`. -/
def advanceWatermark (last_since : Int) (new_logs : List LogEvent) : Int :=
  if new_logs.isEmpty then last_since
  else listMax (new_logs.map (fun e => e.timestamp))

/-- One iteration of the tail loop applied to a fetched event list:
the batch handed to `print_logs` and the updated `last_since`. -/
def tailStep (last_since : Int) (fetched : List LogEvent) : List LogEvent × Int :=
  let new_logs := dedupFilter last_since fetched
  (new_logs, advanceWatermark last_since new_logs)

/-- Observable trace of the `while True` loop of `tail`: the batches handed
to `print_logs`, the final `last_since`, the number of `time.sleep(2)`
calls executed, and whether the loop exited via its `break` (rather than
the fuel running out). -/
structure TailTrace where
  batches : List (List LogEvent)
  final : Int
  sleeps : Nat
  finished : Bool
deriving DecidableEq

/-- Lines 215-257, the `while True` loop of `tail`.  `fetch i w` is the
merged event list produced by the fetch phase of iteration `i` when the
current `last_since` is `w`; `keep_open` and `to_` are the corresponding
arguments of `tail` (`to_` is the raw `--to` string, tested against
`None`).  Fuel bounds the number of iterations. -/
def tailLoop (fetch : Nat → Int → List LogEvent) (keep_open : Bool) (to_ : Option String) :
    Nat → Nat → Int → TailTrace
  | 0, _, last_since => ⟨[], last_since, 0, false⟩
  | fuel + 1, i, last_since =>
    let new_logs := dedupFilter last_since (fetch i last_since)
    let next := advanceWatermark last_since new_logs
    if !keep_open || to_.isSome then
      ⟨[new_logs], next, 0, true⟩
    else
      let rest := tailLoop fetch keep_open to_ fuel (i + 1) next
      ⟨new_logs :: rest.batches, rest.final, rest.sleeps + 1, rest.finished⟩

/-- Python substring containment `needle in hay`. -/
def strContains (hay needle : String) : Bool :=
  hay.toList.tails.any (fun t => needle.toList.isPrefixOf t)

/-- Lines 400-410: `is_metadata_log`. -/
def is_metadata_log (message : String) : Bool :=
  strContains message "START RequestId" ||
  strContains message "REPORT RequestId" ||
  strContains message "END RequestId"

/-- The events actually rendered by `print_logs` (lines 457-465): every
event of the batch except those whose message is a lifecycle marker, which
are skipped by `continue`. -/
def printedLogs (logs : List LogEvent) : List LogEvent :=
  logs.filter (fun e => !is_metadata_log e.message)

/-- Insert an event into a list, before the first element whose timestamp
is not strictly smaller.  Together with `sortByTs` this is a stable sort by
timestamp, the specification of Python `sorted(key=timestamp)`. -/
def insertByTs (e : LogEvent) : List LogEvent → List LogEvent
  | [] => [e]
  | x :: xs => if x.timestamp < e.timestamp then x :: insertByTs e xs else e :: x :: xs

/-- Stable sort by timestamp, modelling line 242 and line 398:
`sorted(events, key=lambda k: k["timestamp"])`. -/
def sortByTs : List LogEvent → List LogEvent
  | [] => []
  | x :: xs => insertByTs x (sortByTs xs)

/-- Set-mode fetch phase (lines 226-242): for each group of the log set, in
order, fetch its events, tag each with the group name, concatenate, and
stable-sort the concatenation by timestamp. -/
def setFetch (log_group_names : List String) (fetchOf : String → List LogEvent) :
    List LogEvent :=
  sortByTs (log_group_names.flatMap
    (fun g => (fetchOf g).map (fun e => LogEvent.mk e.timestamp e.message (some g))))

/-- One response of `logs_client.filter_log_events`: an event page and the
optional continuation token. -/
structure FilterLogPage where
  events : List LogEvent
  nextToken : Option String
deriving DecidableEq

/-- Line 372, the loop guard `not response or "nextToken" in response`
(`response` starts as the falsy empty dict, modelled by `none`). -/
def loopGuard : Option FilterLogPage → Bool
  | none => true
  | some r => r.nextToken.isSome

/-- Lines 372-396, the pagination loop of `fetch_logs`.  `backend tok et`
is the `filter_log_events` response for continuation token `tok` and
`endTime` `et` (all other query arguments are loop-invariant and folded
into `backend`).  `nowMs` is `int(time.time()) * 1000`.  The `end_time`
state is an optional int, `none` and `some 0` both being Python-falsy.
Returns `none` only when the fuel runs out. -/
def fetch_logs_go (backend : Option String → Int → FilterLogPage) (nowMs : Int) :
    Nat → List LogEvent → Option FilterLogPage → Option Int → Option (List LogEvent)
  | 0, _, _, _ => none
  | fuel + 1, events, response, end_time =>
    if loopGuard response then
      let tok := match response with
        | some r => r.nextToken
        | none => none
      let et := match end_time with
        | none => nowMs
        | some v => if v = 0 then nowMs else v
      let r := backend tok et
      let events2 := events ++ r.events
      if et = 0 then fetch_logs_go backend nowMs fuel events2 (some r) (some et)
      else some (sortByTs events2)
    else some (sortByTs events)

/-- Lines 351-398: `fetch_logs`, entered with an empty accumulator and the
falsy initial `response = {}`; `end_time` is the caller's `end_time`
argument (`None` in unbounded mode). -/
def fetch_logs (backend : Option String → Int → FilterLogPage) (nowMs : Int)
    (end_time : Option Int) (fuel : Nat) : Option (List LogEvent) :=
  fetch_logs_go backend nowMs fuel [] none end_time

/-- A concrete backend for which the first `filter_log_events` response
carries a continuation token: page one holds the event at timestamp 100
and points at a second page holding the event at timestamp 50. -/
def twoPageBackend : Option String → Int → FilterLogPage
  | none, _ => ⟨[⟨100, "page one event", none⟩], some "tok1"⟩
  | some _, _ => ⟨[⟨50, "page two event", none⟩], none⟩

/-- Outcome of the identifier dispatch at the top of `tail`. -/
inductive ResolveOutcome
  | exactName (name : String)
  | findGroup (identifier : String)
  | logSet (name : String)
  | invalidCombination
deriving DecidableEq

/-- Lines 201-209: the `exact` / `use_set` dispatch of `tail`, written as
the source's `if`/`elif` chain. -/
def resolveIdentifier (identifier : String) (exact use_set : Bool) : ResolveOutcome :=
  if exact && !use_set then ResolveOutcome.exactName identifier
  else if !exact && !use_set then ResolveOutcome.findGroup identifier
  else if use_set then ResolveOutcome.logSet identifier
  else ResolveOutcome.invalidCombination

/-- Character class `[\d.]` of the duration regex (ASCII digits; the
Unicode-digit extension of Python `\d` is irrelevant to the claims). -/
def isDigitOrDot (c : Char) : Bool :=
  c.isDigit || c == '.'

/-- Character class `[a-zµμ]` of the duration regex. -/
def isUnitChar (c : Char) : Bool :=
  (decide ('a' ≤ c) && decide (c ≤ 'z')) || c == 'µ' || c == 'μ'

/-- Fuel-driven scan behind `findallPairs`.  Every recursive call strictly
shrinks the character list, so fuel equal to the input length makes the
fuel bound unreachable; structural recursion on the fuel keeps the
function kernel-reducible. -/
def findallPairsGo : Nat → List Char → List (String × String)
  | 0, _ => []
  | _, [] => []
  | fuel + 1, c :: rest =>
    if isDigitOrDot c then
      let digits := List.takeWhile isDigitOrDot (c :: rest)
      let afterDigits := List.dropWhile isDigitOrDot (c :: rest)
      let letters := List.takeWhile isUnitChar afterDigits
      if letters.isEmpty then findallPairsGo fuel rest
      else (String.mk digits, String.mk letters) ::
        findallPairsGo fuel (List.dropWhile isUnitChar afterDigits)
    else findallPairsGo fuel rest

/-- Semantics of `re.findall("([\d.]+)([a-zµμ]+)", s)`: scan left to
right; at each position try to match a maximal nonempty run of digits/dots
followed by a maximal nonempty run of unit characters; on success record
the two groups and continue after the match, otherwise advance one
character.  (The two character classes are disjoint, so the regex engine's
backtracking can never succeed where this scan fails.) -/
def findallPairs (s : List Char) : List (String × String) :=
  findallPairsGo s.length s

/-- The text consumed by the regex matches: concatenation of both groups of
every match, in order. -/
def matchedChars (s : List Char) : String :=
  String.join ((findallPairs s).map (fun p => p.1 ++ p.2))

/-- True when the regex matches jointly consume the whole input, i.e. the
input is entirely a sequence of `(number)(unit)` pairs. -/
def consumedWhole (s : List Char) : Bool :=
  matchedChars s == String.mk s

/-- Numeric value of a digit string (most significant first). -/
def charDigitsVal (l : List Char) : Nat :=
  l.foldl (fun acc c => 10 * acc + (c.toNat - 48)) 0

/-- Python `float` restricted to strings drawn from digits and dots (the
only strings the first regex group can produce): defined exactly when the
string contains at least one digit and at most one dot. -/
def pyFloatOfNumStr (l : List Char) : Option ℚ :=
  if l.any Char.isDigit ∧ l.count '.' ≤ 1 then
    let intPart := l.takeWhile (fun c => c != '.')
    let fracPart := (l.dropWhile (fun c => c != '.')).drop 1
    some ((charDigitsVal intPart : ℚ) + (charDigitsVal fracPart : ℚ) / ((10 : ℚ) ^ fracPart.length))
  else none

/-- The `units` table of `durationpy_from_str`, in nanoseconds. -/
def unitSize (u : String) : Option Nat :=
  if u = "ns" then some 1
  else if u = "us" then some 1000
  else if u = "µs" then some 1000
  else if u = "μs" then some 1000
  else if u = "ms" then some 1000000
  else if u = "s" then some 1000000000
  else if u = "m" then some 60000000000
  else if u = "h" then some 3600000000000
  else if u = "d" then some 86400000000000
  else if u = "w" then some 604800000000000
  else if u = "mm" then some 2592000000000000
  else if u = "y" then some 31536000000000000
  else none

deriving instance DecidableEq for Except

/-- The exceptions `durationpy_from_str` can raise. -/
inductive DurationError
  | invalidDuration
  | unknownUnit
  | invalidValue
deriving DecidableEq

/-- Lines 62-68: the accumulation loop over the regex matches, raising on
the first unknown unit or unparseable value.  The total is in
nanoseconds. -/
def sumPairs : List (String × String) → ℚ → Except DurationError ℚ
  | [], total => Except.ok total
  | (value, u) :: rest, total =>
    match unitSize u with
    | none => Except.error DurationError.unknownUnit
    | some sz =>
      match pyFloatOfNumStr value.toList with
      | none => Except.error DurationError.invalidValue
      | some v => sumPairs rest (total + v * (sz : ℚ))

/-- Lines 23-71: `durationpy_from_str`.  The result is the signed duration
in microseconds (the value passed to `datetime.timedelta`); errors model
the raised exceptions. -/
def durationpy_from_str (duration : String) : Except DurationError ℚ :=
  if duration = "0" ∨ duration = "+0" ∨ duration = "-0" then Except.ok 0
  else if findallPairs duration.toList = [] then Except.error DurationError.invalidDuration
  else (sumPairs (findallPairs duration.toList) 0).map
    (fun total =>
      (if duration.toList.head? = some '-' then (-1 : ℚ) else 1) * (total / 1000))

/-- The failures `find_log_group` can raise. -/
inductive FindLogGroupError
  | noMatch
  | invalidChoice
deriving DecidableEq

/-- ASCII whitespace stripped by Python `int` on strings. -/
def isPySpace (c : Char) : Bool :=
  c == ' ' || c == '\t' || c == '\n' || c == '\r'

/-- Python `int` on a string: optional surrounding whitespace, an optional
sign, then a nonempty digit run (the underscore-separator extension is not
modelled; no claim touches it). -/
def pyIntOfString (s : String) : Option Int :=
  let t := ((s.toList.dropWhile isPySpace).reverse.dropWhile isPySpace).reverse
  match t with
  | [] => none
  | '-' :: ds =>
    if ds ≠ [] ∧ ds.all Char.isDigit then some (-(charDigitsVal ds : Int)) else none
  | '+' :: ds =>
    if ds ≠ [] ∧ ds.all Char.isDigit then some (charDigitsVal ds) else none
  | ds =>
    if ds ≠ [] ∧ ds.all Char.isDigit then some (charDigitsVal ds) else none

/-- Lines 269-302: `find_log_group`.  `log_groups` is the backend's
catalog of group names in catalog order, `choice` the operator's answer to
the disambiguation prompt (read only when more than one candidate
matches). -/
def find_log_group (log_groups : List String) (identifier : String) (choice : String) :
    Except FindLogGroupError String :=
  let candidates := log_groups.filter (fun g => strContains g identifier)
  if candidates.length = 0 then Except.error FindLogGroupError.noMatch
  else if candidates.length = 1 then Except.ok (candidates.headD "")
  else
    match pyIntOfString choice with
    | none => Except.error FindLogGroupError.invalidChoice
    | some n =>
      if n < 0 ∨ (candidates.length : Int) ≤ n then
        Except.error FindLogGroupError.invalidChoice
      else Except.ok (candidates.getD n.toNat "")

theorem le_foldl_max (a : Int) (l : List Int) : a ≤ l.foldl max a := by
  induction l generalizing a with
  | nil => exact le_refl a
  | cons x xs ih => exact le_trans (le_max_left a x) (ih (max a x))

theorem mem_le_foldl_max {x : Int} {l : List Int} (h : x ∈ l) (a : Int) :
    x ≤ l.foldl max a := by
  induction l generalizing a with
  | nil => cases h
  | cons y ys ih =>
    rcases List.mem_cons.mp h with rfl | h2
    · exact le_trans (le_max_right a x) (le_foldl_max _ _)
    · exact ih h2 _

theorem foldl_max_mem (a : Int) (l : List Int) : l.foldl max a = a ∨ l.foldl max a ∈ l := by
  induction l generalizing a with
  | nil => exact Or.inl rfl
  | cons x xs ih =>
    rcases ih (max a x) with h | h
    · rcases max_cases a x with ⟨h1, _⟩ | ⟨h1, _⟩
      · exact Or.inl (by rw [List.foldl_cons, h, h1])
      · exact Or.inr (by rw [List.foldl_cons, h, h1]; exact List.mem_cons_self x xs)
    · exact Or.inr (List.mem_cons_of_mem _ h)

theorem le_listMax {x : Int} {l : List Int} (h : x ∈ l) : x ≤ listMax l := by
  match l with
  | [] => cases h
  | y :: ys =>
    rcases List.mem_cons.mp h with rfl | h2
    · exact le_foldl_max _ _
    · exact mem_le_foldl_max h2 _

theorem listMax_mem {l : List Int} (h : l ≠ []) : listMax l ∈ l := by
  match l with
  | [] => exact absurd rfl h
  | y :: ys =>
    rcases foldl_max_mem y ys with h2 | h2
    · show ys.foldl max y ∈ y :: ys
      rw [h2]; exact List.mem_cons_self _ _
    · exact List.mem_cons_of_mem _ h2

theorem mem_dedupFilter {w : Int} {l : List LogEvent} {e : LogEvent} :
    e ∈ dedupFilter w l ↔ e ∈ l ∧ w < e.timestamp := by
  simp [dedupFilter]

theorem advanceWatermark_nil (w : Int) : advanceWatermark w [] = w := rfl

theorem advanceWatermark_eq_of_ne {w : Int} {nl : List LogEvent} (h : nl ≠ []) :
    advanceWatermark w nl = listMax (nl.map (fun e => e.timestamp)) := by
  unfold advanceWatermark
  simp [h]

theorem le_advanceWatermark_of_mem {w : Int} {l : List LogEvent} {e : LogEvent}
    (he : e ∈ dedupFilter w l) :
    e.timestamp ≤ advanceWatermark w (dedupFilter w l) := by
  have hne : dedupFilter w l ≠ [] := List.ne_nil_of_mem he
  rw [advanceWatermark_eq_of_ne hne]
  exact le_listMax (List.mem_map.mpr ⟨e, he, rfl⟩)

theorem advanceWatermark_ge (w : Int) (l : List LogEvent) :
    w ≤ advanceWatermark w (dedupFilter w l) := by
  by_cases h : dedupFilter w l = []
  · rw [h, advanceWatermark_nil]
  · obtain ⟨e, he⟩ := List.exists_mem_of_ne_nil _ h
    exact le_of_lt (lt_of_lt_of_le (mem_dedupFilter.mp he).2 (le_advanceWatermark_of_mem he))

theorem tailLoop_final_ge (fetch : Nat → Int → List LogEvent) (keep_open : Bool)
    (to_ : Option String) (fuel i : Nat) (w : Int) :
    w ≤ (tailLoop fetch keep_open to_ fuel i w).final := by
  induction fuel generalizing i w with
  | zero => exact le_refl w
  | succ fuel ih =>
    rw [tailLoop]
    split
    · exact advanceWatermark_ge w (fetch i w)
    · exact le_trans (advanceWatermark_ge w (fetch i w)) (ih _ _)

theorem tailLoop_batches_above (fetch : Nat → Int → List LogEvent) (keep_open : Bool)
    (to_ : Option String) (fuel i : Nat) (w : Int) :
    ∀ b ∈ (tailLoop fetch keep_open to_ fuel i w).batches, ∀ e ∈ b, w < e.timestamp := by
  induction fuel generalizing i w with
  | zero => intro b hb; simp [tailLoop] at hb
  | succ fuel ih =>
    intro b hb e heb
    rw [tailLoop] at hb
    split at hb
    · rcases List.mem_singleton.mp hb with rfl
      exact (mem_dedupFilter.mp heb).2
    · rcases List.mem_cons.mp hb with rfl | hb2
      · exact (mem_dedupFilter.mp heb).2
      · exact lt_of_le_of_lt (advanceWatermark_ge w (fetch i w)) (ih _ _ b hb2 e heb)

theorem mem_insertByTs {y e : LogEvent} {l : List LogEvent} :
    y ∈ insertByTs e l ↔ y = e ∨ y ∈ l := by
  induction l with
  | nil => simp [insertByTs]
  | cons x xs ih =>
    rw [insertByTs]
    split
    · simp only [List.mem_cons, ih]
      tauto
    · simp [List.mem_cons]

theorem insertByTs_perm (e : LogEvent) (l : List LogEvent) :
    (insertByTs e l).Perm (e :: l) := by
  induction l with
  | nil => exact List.Perm.refl _
  | cons x xs ih =>
    rw [insertByTs]
    split
    · exact (ih.cons x).trans (List.Perm.swap e x xs)
    · exact List.Perm.refl _

theorem sortByTs_perm (l : List LogEvent) : (sortByTs l).Perm l := by
  induction l with
  | nil => exact List.Perm.refl _
  | cons x xs ih => exact (insertByTs_perm x (sortByTs xs)).trans (ih.cons x)

theorem sorted_insertByTs {e : LogEvent} {l : List LogEvent}
    (h : l.Pairwise (fun a b => a.timestamp ≤ b.timestamp)) :
    (insertByTs e l).Pairwise (fun a b => a.timestamp ≤ b.timestamp) := by
  induction l with
  | nil => simp [insertByTs]
  | cons x xs ih =>
    rcases List.pairwise_cons.mp h with ⟨hx, hxs⟩
    rw [insertByTs]
    split
    · rename_i hlt
      refine List.pairwise_cons.mpr ⟨?_, ih hxs⟩
      intro y hy
      rcases mem_insertByTs.mp hy with rfl | hy2
      · exact le_of_lt hlt
      · exact hx y hy2
    · rename_i hnlt
      refine List.pairwise_cons.mpr ⟨?_, h⟩
      intro y hy
      rcases List.mem_cons.mp hy with rfl | hy2
      · exact le_of_not_lt hnlt
      · exact le_trans (le_of_not_lt hnlt) (hx y hy2)

theorem sorted_sortByTs (l : List LogEvent) :
    (sortByTs l).Pairwise (fun a b => a.timestamp ≤ b.timestamp) := by
  induction l with
  | nil => simp [sortByTs]
  | cons x xs ih => exact sorted_insertByTs ih

theorem filter_insertByTs (t : Int) (e : LogEvent) (l : List LogEvent) :
    (insertByTs e l).filter (fun x => x.timestamp == t) =
      if e.timestamp = t then e :: l.filter (fun x => x.timestamp == t)
      else l.filter (fun x => x.timestamp == t) := by
  induction l with
  | nil => by_cases h : e.timestamp = t <;> simp [insertByTs, h]
  | cons x xs ih =>
    rw [insertByTs]
    by_cases hlt : x.timestamp < e.timestamp
    · rw [if_pos hlt, List.filter_cons, ih]
      by_cases hte : e.timestamp = t
      · have hxt : ¬ x.timestamp = t := by omega
        simp [hxt, hte, List.filter_cons]
      · simp [hte, List.filter_cons]
    · rw [if_neg hlt, List.filter_cons]
      by_cases hte : e.timestamp = t
      · simp [hte, List.filter_cons]
      · simp [hte, List.filter_cons]

theorem filter_sortByTs (t : Int) (l : List LogEvent) :
    (sortByTs l).filter (fun x => x.timestamp == t) =
      l.filter (fun x => x.timestamp == t) := by
  induction l with
  | nil => rfl
  | cons x xs ih =>
    show (insertByTs x (sortByTs xs)).filter (fun x => x.timestamp == t) = _
    rw [filter_insertByTs, ih, List.filter_cons]
    by_cases h : x.timestamp = t <;> simp [h]

theorem map_isOk_eq {ε α β : Type} (f : α → β) (e : Except ε α) :
    (e.map f).isOk = e.isOk := by
  cases e <;> rfl

theorem sumPairs_isOk (ms : List (String × String)) (total : ℚ) :
    (sumPairs ms total).isOk = true ↔
      ∀ p ∈ ms, (unitSize p.2).isSome = true ∧ (pyFloatOfNumStr p.1.toList).isSome = true := by
  induction ms generalizing total with
  | nil => simp [sumPairs, Except.isOk, Except.toBool]
  | cons p rest ih =>
    obtain ⟨value, u⟩ := p
    rw [sumPairs]
    cases hu : unitSize u with
    | none => simp [hu, Except.isOk, Except.toBool]
    | some sz =>
      cases hv : pyFloatOfNumStr value.toList with
      | none =>
        have hv2 : pyFloatOfNumStr value.data = none := hv
        simp [hu, hv2, Except.isOk, Except.toBool]
      | some v =>
        have hv2 : pyFloatOfNumStr value.data = some v := hv
        simp [hu, hv2, ih]

theorem find_log_group_noMatch_iff (log_groups : List String) (identifier choice : String) :
    (find_log_group log_groups identifier choice = Except.error FindLogGroupError.noMatch ↔
      log_groups.filter (fun g => strContains g identifier) = []) := by
  unfold find_log_group
  rcases hf : log_groups.filter (fun g => strContains g identifier) with _ | ⟨a, tl⟩
  · simp [hf]
  · rcases tl with _ | ⟨b, rest⟩
    · simp [hf]
    · simp only [hf]
      rw [if_neg (by simp), if_neg (by simp only [List.length_cons]; omega)]
      cases pyIntOfString choice with
      | none => simp
      | some n =>
        split
        · simp
        · split <;> simp

theorem find_log_group_single {log_groups : List String} {identifier choice c : String}
    (h : log_groups.filter (fun g => strContains g identifier) = [c]) :
    find_log_group log_groups identifier choice = Except.ok c := by
  unfold find_log_group
  simp [h]

theorem find_log_group_choice {log_groups : List String} {identifier choice : String} {n : Nat}
    (h2 : 2 ≤ (log_groups.filter (fun g => strContains g identifier)).length)
    (hn : n < (log_groups.filter (fun g => strContains g identifier)).length)
    (hp : pyIntOfString choice = some (n : Int)) :
    find_log_group log_groups identifier choice =
      Except.ok ((log_groups.filter (fun g => strContains g identifier)).getD n "") := by
  unfold find_log_group
  rw [if_neg (by omega), if_neg (by omega), hp]
  have hcond : ¬ ((n : Int) < 0 ∨
      ((log_groups.filter (fun g => strContains g identifier)).length : Int) ≤ (n : Int)) := by
    push_neg
    exact ⟨by positivity, by exact_mod_cast hn⟩
  simp [hcond]
  exact hn

/-- C1: the claim states that `fetch_logs` keeps issuing backend
`filter_log_events` requests, passing the previous response's continuation
token, until a response carries no continuation token, and returns the
union of all pages' events.  Evaluating the embedded `fetch_logs` on a
backend whose first response carries the token `tok1` shows the code
instead stops after the single first request: the unconditional
`if end_time: break` fires because `end_time` has just been set, so the
second page's event (timestamp 50) never reaches the result. -/
theorem fetch_logs_single_request_eval :
    fetch_logs twoPageBackend 1700000000000 none 5 =
      some [⟨100, "page one event", none⟩] ∧
    (twoPageBackend none 1700000000000).nextToken = some "tok1" :=
  ⟨by decide, by decide⟩

/-- C2: for every fetch result (empty or out of order), the watermark after
the ADVANCE step is at least its value before the step; it is unchanged
when the iteration produced zero new events, and otherwise equals the
maximum timestamp over the iteration's new events; consequently the
watermark at loop exit is never below the initial one for any run. -/
theorem watermark_advance_monotone_spec (w : Int) (fetched : List LogEvent)
    (fetch : Nat → Int → List LogEvent) (keep_open : Bool) (to_ : Option String)
    (fuel i : Nat) :
    w ≤ (tailStep w fetched).2 ∧
    (dedupFilter w fetched = [] → (tailStep w fetched).2 = w) ∧
    (dedupFilter w fetched ≠ [] →
      (tailStep w fetched).2 = listMax ((dedupFilter w fetched).map (fun e => e.timestamp))) ∧
    w ≤ (tailLoop fetch keep_open to_ fuel i w).final := by
  refine ⟨advanceWatermark_ge w fetched, ?_, ?_, tailLoop_final_ge fetch keep_open to_ fuel i w⟩
  · intro h
    show advanceWatermark w (dedupFilter w fetched) = w
    rw [h, advanceWatermark_nil]
  · intro h
    exact advanceWatermark_eq_of_ne h

/-- Witness for C2 at a concrete iteration: watermark 5, one fetched event
at timestamp 7. -/
theorem watermark_advance_monotone_spec_witness :
    (tailStep 5 [⟨7, "w-event", none⟩]).2 =
      listMax ((dedupFilter 5 [⟨7, "w-event", none⟩]).map (fun e => e.timestamp)) :=
  (watermark_advance_monotone_spec 5 [⟨7, "w-event", none⟩]
    (fun _ _ => []) true none 0 0).2.2.1 (by decide)

/-- C3: in every loop iteration the de-duplication filter keeps exactly the
fetched events with timestamp strictly above the current watermark, so an
event whose timestamp is less than or equal to the watermark — in
particular equal to it — is excluded from the render pass. -/
theorem dedup_strict_filter_spec (w : Int) (fetched : List LogEvent) (e : LogEvent)
    (he : e ∈ fetched) :
    (e ∈ (tailStep w fetched).1 ↔ w < e.timestamp) ∧
    (e.timestamp = w → e ∉ (tailStep w fetched).1) := by
  constructor
  · constructor
    · intro h
      exact (mem_dedupFilter.mp h).2
    · intro h
      exact mem_dedupFilter.mpr ⟨he, h⟩
  · intro h hmem
    have h2 := (mem_dedupFilter.mp hmem).2
    omega

/-- Witness for C3: an event at timestamp 6 against watermark 5 passes the
filter. -/
theorem dedup_strict_filter_spec_witness :
    (⟨6, "kept", none⟩ : LogEvent) ∈ (tailStep 5 [⟨6, "kept", none⟩]).1 :=
  (dedup_strict_filter_spec 5 [⟨6, "kept", none⟩] ⟨6, "kept", none⟩ (by decide)).1.mpr
    (by decide)

/-- C4: set-mode fetch tags every event with its originating target,
concatenates the targets' results in target order and stable-sorts by
timestamp: the merged list is a permutation of the tagged concatenation,
is sorted by timestamp, and preserves the fetch order of events with any
fixed timestamp; for target A yielding timestamps [10,30] and target B
yielding [20,25] the filtered merge is [10,20,25,30] with tags, and a
timestamp tie across targets stays in fetch order. -/
theorem multi_target_merge_spec :
    (∀ gs f, (setFetch gs f).Perm (gs.flatMap
      (fun g => (f g).map (fun e => LogEvent.mk e.timestamp e.message (some g))))) ∧
    (∀ gs f, (setFetch gs f).Pairwise (fun a b => a.timestamp ≤ b.timestamp)) ∧
    (∀ gs f t, (setFetch gs f).filter (fun e => e.timestamp == t) =
      (gs.flatMap (fun g => (f g).map
        (fun e => LogEvent.mk e.timestamp e.message (some g)))).filter
          (fun e => e.timestamp == t)) ∧
    dedupFilter 0 (setFetch ["A", "B"] (fun g =>
      if g == "A" then [⟨10, "a1", none⟩, ⟨30, "a2", none⟩]
      else [⟨20, "b1", none⟩, ⟨25, "b2", none⟩])) =
      [⟨10, "a1", some "A"⟩, ⟨20, "b1", some "B"⟩, ⟨25, "b2", some "B"⟩,
        ⟨30, "a2", some "A"⟩] ∧
    setFetch ["A", "B"] (fun g =>
      if g == "A" then [⟨10, "tie from first target", none⟩]
      else [⟨10, "tie from second target", none⟩]) =
      [⟨10, "tie from first target", some "A"⟩, ⟨10, "tie from second target", some "B"⟩] :=
  ⟨fun gs f => sortByTs_perm _, fun gs f => sorted_sortByTs _,
   fun gs f t => filter_sortByTs _ _, by decide, by decide⟩

/-- C5: whenever a `--to` bound is supplied, any run of the tail loop (any
fetch behaviour, `keep_open` setting, iteration counter and watermark)
performs exactly one FETCH, RENDER and ADVANCE, finishes via the `break`,
and never reaches `time.sleep`. -/
theorem bounded_to_single_pass_spec (fetch : Nat → Int → List LogEvent)
    (keep_open : Bool) (t : String) (fuel i : Nat) (w : Int) :
    (tailLoop fetch keep_open (some t) (fuel + 1) i w).batches =
      [dedupFilter w (fetch i w)] ∧
    (tailLoop fetch keep_open (some t) (fuel + 1) i w).sleeps = 0 ∧
    (tailLoop fetch keep_open (some t) (fuel + 1) i w).finished = true ∧
    (tailLoop fetch keep_open (some t) (fuel + 1) i w).final =
      advanceWatermark w (dedupFilter w (fetch i w)) := by
  rw [tailLoop]
  simp

/-- C6: the claim states that setting both `-e` and `-s` fails with a usage
error.  Evaluating the embedded dispatch shows the code instead takes the
log-set branch when both flags are set, and that the `Invalid combination
of arguments` branch is unreachable for every flag combination. -/
theorem both_flags_take_set_path_eval :
    resolveIdentifier "payments" true true = ResolveOutcome.logSet "payments" ∧
    (∀ s ex us, resolveIdentifier s ex us = ResolveOutcome.exactName s ∨
      resolveIdentifier s ex us = ResolveOutcome.findGroup s ∨
      resolveIdentifier s ex us = ResolveOutcome.logSet s) := by
  refine ⟨by decide, ?_⟩
  intro s ex us
  cases ex <;> cases us <;> simp [resolveIdentifier]

/-- C7 counterexample: the claim states no input may succeed by parsing
only part of the string, yet `"1h!"` — which is not entirely a sequence of
`(number)(unit)` pairs, as the regex matches consume only `"1h"` — parses
successfully and yields the same duration as `"1h"`. -/
theorem duration_partial_parse_accepts :
    (durationpy_from_str "1h!").isOk = true ∧
    durationpy_from_str "1h!" = durationpy_from_str "1h" ∧
    matchedChars ("1h!".toList) = "1h" ∧
    consumedWhole ("1h!".toList) = false :=
  ⟨by decide, rfl, by decide, by decide⟩

/-- C7 (amended): outside the degenerate zero forms, the duration parser
succeeds exactly when the regex finds at least one `(number)(unit)` match
in the string and every match has a known unit and a parseable numeric
value; characters outside the matches are ignored, so a string need not be
entirely a sequence of pairs to parse. -/
theorem duration_failure_condition_spec (s : String)
    (h1 : s ≠ "0") (h2 : s ≠ "+0") (h3 : s ≠ "-0") :
    ((durationpy_from_str s).isOk = true ↔
      (findallPairs s.toList ≠ [] ∧
        ∀ p ∈ findallPairs s.toList,
          (unitSize p.2).isSome = true ∧ (pyFloatOfNumStr p.1.toList).isSome = true)) := by
  unfold durationpy_from_str
  rw [if_neg (by simp [h1, h2, h3])]
  by_cases hm : findallPairs s.toList = []
  · rw [if_pos hm]
    have hm3 : findallPairs s.data = [] := hm
    simp [hm3, Except.isOk, Except.toBool]
  · rw [if_neg hm, map_isOk_eq, sumPairs_isOk]
    constructor
    · intro h
      exact ⟨hm, h⟩
    · intro h
      exact h.2

/-- Witness for C7 (amended): the mixed-unit string `"1h30m"` parses. -/
theorem duration_failure_condition_spec_witness :
    (durationpy_from_str "1h30m").isOk = true :=
  (duration_failure_condition_spec "1h30m" (by decide) (by decide) (by decide)).mpr
    (by decide)

/-- C8: the substring resolver fails with the no-match error exactly when no
catalog name contains the identifier; a unique match is returned without
consulting the choice; with at least two matches a numeric in-range choice
returns the candidate at that index of the catalog-ordered candidate list;
concretely, with three candidates containing `"x"` the enumerated list is
those three in catalog order, choice `"1"` returns the second, and choices
`"5"` and `"abc"` fail with the invalid-selection error. -/
theorem find_log_group_spec (log_groups : List String) (identifier choice c : String)
    (n : Nat) :
    (find_log_group log_groups identifier choice = Except.error FindLogGroupError.noMatch ↔
      log_groups.filter (fun g => strContains g identifier) = []) ∧
    (log_groups.filter (fun g => strContains g identifier) = [c] →
      find_log_group log_groups identifier choice = Except.ok c) ∧
    (2 ≤ (log_groups.filter (fun g => strContains g identifier)).length →
      n < (log_groups.filter (fun g => strContains g identifier)).length →
      pyIntOfString choice = some (n : Int) →
      find_log_group log_groups identifier choice =
        Except.ok ((log_groups.filter (fun g => strContains g identifier)).getD n "")) ∧
    ["g-xa", "g-xb", "g-xc", "other"].filter (fun g => strContains g "x") =
      ["g-xa", "g-xb", "g-xc"] ∧
    find_log_group ["g-xa", "g-xb", "g-xc", "other"] "x" "1" = Except.ok "g-xb" ∧
    find_log_group ["g-xa", "g-xb", "g-xc", "other"] "x" "5" =
      Except.error FindLogGroupError.invalidChoice ∧
    find_log_group ["g-xa", "g-xb", "g-xc", "other"] "x" "abc" =
      Except.error FindLogGroupError.invalidChoice :=
  ⟨find_log_group_noMatch_iff log_groups identifier choice,
   fun h => find_log_group_single h,
   fun h2 hn hp => find_log_group_choice h2 hn hp,
   by decide, by decide, by decide, by decide⟩

/-- Witness for C8: a catalog with exactly one name containing the
identifier resolves to it regardless of the choice string. -/
theorem find_log_group_spec_witness :
    find_log_group ["alpha-x", "other"] "alpha" "9" = Except.ok "alpha-x" :=
  (find_log_group_spec ["alpha-x", "other"] "alpha" "9" "alpha-x" 0).2.1 (by decide)

/-- C9: a fetched event whose message is a lifecycle marker (START, END or
REPORT of an invocation) is never among the events rendered by
`print_logs`, yet when it survives the de-duplication filter its timestamp
still bounds the advanced watermark from below. -/
theorem metadata_render_skip_spec (w : Int) (fetched : List LogEvent) (e : LogEvent)
    (he : e ∈ fetched) (hm : is_metadata_log e.message = true) :
    e ∉ printedLogs (tailStep w fetched).1 ∧
    (w < e.timestamp → e.timestamp ≤ (tailStep w fetched).2) := by
  constructor
  · intro hmem
    have h2 := (List.mem_filter.mp hmem).2
    rw [hm] at h2
    simp at h2
  · intro hts
    exact le_advanceWatermark_of_mem (mem_dedupFilter.mpr ⟨he, hts⟩)

/-- Witness for C9: a START marker at timestamp 9 above watermark 5 pushes
the watermark to at least 9. -/
theorem metadata_render_skip_spec_witness :
    (9 : Int) ≤ (tailStep 5 [⟨9, "START RequestId: 42", none⟩]).2 :=
  (metadata_render_skip_spec 5 [⟨9, "START RequestId: 42", none⟩]
    ⟨9, "START RequestId: 42", none⟩ (by decide) (by decide)).2 (by decide)

/-- C10: across the iterations of any run of the tail loop, every event of
a later rendered batch has a timestamp strictly greater than every event of
any earlier rendered batch, so no event is handed to the renderer in more
than one iteration. -/
theorem iterations_strictly_increase_spec (fetch : Nat → Int → List LogEvent)
    (keep_open : Bool) (to_ : Option String) (fuel i : Nat) (w : Int) :
    (tailLoop fetch keep_open to_ fuel i w).batches.Pairwise
      (fun b1 b2 => ∀ e ∈ b1, ∀ f ∈ b2, e.timestamp < f.timestamp) := by
  induction fuel generalizing i w with
  | zero => simp [tailLoop]
  | succ fuel ih =>
    rw [tailLoop]
    split
    · simp
    · refine List.pairwise_cons.mpr ⟨?_, ih _ _⟩
      intro b hb e heb f hfb
      have h1 : e.timestamp ≤ advanceWatermark w (dedupFilter w (fetch i w)) :=
        le_advanceWatermark_of_mem heb
      have h2 := tailLoop_batches_above fetch keep_open to_ fuel (i + 1)
        (advanceWatermark w (dedupFilter w (fetch i w))) b hb f hfb
      omega
